import Mathlib

/-!
Verification development for the live-directory repository.

The repository keeps an in-memory mirror of a directory tree.  The current
implementation (a Map-based LiveDirectory class) stores one record per file in
a `#files` JavaScript Map keyed by root-relative path, and tracks which paths
hold in-memory content in a `#cached` Map (the cache ledger).  An older,
DirectoryTree-based implementation of the same design is also present in the
repository; where a claim touches both, both are embedded.

Conventions of the shallow embedding:
  - A JavaScript `Map` (and a plain object used as a dictionary) is modelled
    as an association list with `mapGet` / `mapSet` / `mapDelete`; `mapSet`
    replaces the value in place when the key exists, as `Map.set` does, so
    lists reachable from the empty map have pairwise distinct keys and their
    length is the `Map.size` of the source.
  - `Buffer` contents are modelled as `String` (a byte sequence).
  - The MD5 primitive (`Crypto.createHash("md5")...digest("hex")`) is external
    to the repository and is carried as a function-valued field `md5_hash` of
    the environment; theorems that need collision-freeness assume injectivity.
  - Asynchronous filesystem reads are modelled by the value the awaited
    promise settles with: `Except.ok content` or `Except.error e`.
-/

/-- Lookup in a JavaScript Map modelled as an association list. -/
def mapGet {α : Type} : List (String × α) → String → Option α
  | [], _ => none
  | (k, v) :: rest, key => if k = key then some v else mapGet rest key

/-- `Map.set`: replace the value in place when the key exists, else append. -/
def mapSet {α : Type} : List (String × α) → String → α → List (String × α)
  | [], key, v => [(key, v)]
  | (k, w) :: rest, key, v =>
      if k = key then (k, v) :: rest else (k, w) :: mapSet rest key v

/-- `Map.delete`: remove the entry with the given key. -/
def mapDelete {α : Type} : List (String × α) → String → List (String × α)
  | [], _ => []
  | (k, w) :: rest, key => if k = key then rest else (k, w) :: mapDelete rest key

/-- Character-list test that `p` is a leading segment of `s`; this is the
semantics of the JavaScript `String.prototype.startsWith`. -/
def chars_begins : List Char → List Char → Bool
  | [], _ => true
  | _ :: _, [] => false
  | p :: ps, s :: ss => p == s && chars_begins ps ss

/-- JavaScript `path.startsWith(other)` over the embedding of strings. -/
def js_starts_with (s p : String) : Bool := chars_begins p.data s.data

/-- Drop the first `n` characters of a string; used to model
`path.replace(root, "")` when `path.startsWith(root)` is known, since then the
first occurrence of `root` is exactly the leading `root.length` characters. -/
def js_drop (s : String) (n : Nat) : String := ⟨s.data.drop n⟩

/-- JavaScript `String.prototype.split` with a one-character separator, over
character lists: the empty string splits to `[""]`, and every separator
occurrence opens a new piece. -/
def js_split (sep : Char) : List Char → List (List Char)
  | [] => [[]]
  | c :: cs =>
      match js_split sep cs with
      | [] => [[]]
      | h :: t => if c = sep then [] :: h :: t else (c :: h) :: t

/-- `path.split(sep)` producing strings. -/
def js_split_string (sep : Char) (s : String) : List String :=
  (js_split sep s.data).map (fun cs => ⟨cs⟩)

namespace LiveDir

/-- The fields of `fs.Stats` that the LiveDirectory code reads. -/
structure Stats where
  size : Nat
  ctimeMs : Nat
  mtimeMs : Nat
deriving DecidableEq

/-- `options.cache` of the LiveDirectory constructor. -/
structure CacheOptions where
  max_file_count : Nat
  max_file_size : Nat
deriving DecidableEq

/-- The FileStats record built by `LiveDirectory._create_stats`. -/
structure FileStats where
  path : String
  etag : String
  stats : Stats
  cached : Bool
  _content : Option String
deriving DecidableEq

/-- The fixed context of one LiveDirectory instance: the resolved root path,
the cache options, and the external MD5 primitive. -/
structure Env where
  root : String
  opts : CacheOptions
  md5_hash : String → String

/-- `LiveDirectory._to_relative_path`: strip the root prefix when present,
then ensure a leading slash. -/
def _to_relative_path (root path : String) : String :=
  let path := if js_starts_with path root then js_drop path root.data.length else path
  if js_starts_with path "/" then path else "/" ++ path

/-- The string `[size, stats.ctimeMs, stats.mtimeMs].join(",")` that the weak
ETag hashes. -/
def weak_fingerprint (stats : Stats) : String :=
  toString stats.size ++ "," ++ toString stats.ctimeMs ++ "," ++ toString stats.mtimeMs

/-- `LiveDirectory._create_stats`.  The caching decision compares the file
size with `max_file_size` and the ledger size (`#cached.size`) with
`max_file_count`.  In the caching branch the ledger is updated first
(`this.#cached.set(relative_uri, Date.now())`) and only then the content read
is awaited, so a rejected read still leaves the ledger updated; the second
component of the result is the new ledger.  `now` is the `Date.now()` value
and `read` the outcome of `FileSystem.readFile(path)`. -/
def _create_stats (env : Env) (cached : List (String × Nat)) (now : Nat)
    (read : Except String String) (path : String) (stats : Stats) :
    Except String FileStats × List (String × Nat) :=
  let relative_uri := _to_relative_path env.root path
  if stats.size ≤ env.opts.max_file_size ∧ cached.length < env.opts.max_file_count then
    match read with
    | Except.ok content =>
        (Except.ok { path := path
                     etag := "\"" ++ env.md5_hash content ++ "\""
                     stats := stats
                     cached := true
                     _content := some content },
         mapSet cached relative_uri now)
    | Except.error e => (Except.error e, mapSet cached relative_uri now)
  else
    (Except.ok { path := path
                 etag := "W/\"" ++ env.md5_hash (weak_fingerprint stats) ++ "\""
                 stats := stats
                 cached := false
                 _content := none },
     cached)

/-- The watcher actions `_modify` dispatches on. -/
inductive Action where
  | add
  | update
  | delete
deriving DecidableEq

/-- The mutable instance state: the `#files` map and the `#cached` ledger. -/
structure DirState where
  files : List (String × FileStats)
  cached : List (String × Nat)
deriving DecidableEq

/-- `LiveDirectory._modify`.  On delete both maps drop the relative path; on
add and update a FileStats record is built and stored.  When the awaited
content read rejects, `_modify` rejects before `this.#files.set` runs, so the
files map is unchanged (the ledger update made inside `_create_stats`
persists, because it mutated instance state before the failed await). -/
def _modify (env : Env) (st : DirState) (action : Action) (path : String)
    (stats : Stats) (now : Nat) (read : Except String String) : DirState :=
  let relative_uri := _to_relative_path env.root path
  match action with
  | Action.delete =>
      { files := mapDelete st.files relative_uri
        cached := mapDelete st.cached relative_uri }
  | _ =>
      match _create_stats env st.cached now read path stats with
      | (Except.ok fstats, cached2) =>
          { files := mapSet st.files relative_uri fstats, cached := cached2 }
      | (Except.error _, cached2) => { files := st.files, cached := cached2 }

instance : DecidableEq (Except String String) := fun a b =>
  match a, b with
  | Except.ok x, Except.ok y =>
      if h : x = y then isTrue (by rw [h])
      else isFalse (fun hh => h (Except.ok.inj hh))
  | Except.ok _, Except.error _ => isFalse (fun hh => Except.noConfusion hh)
  | Except.error _, Except.ok _ => isFalse (fun hh => Except.noConfusion hh)
  | Except.error x, Except.error y =>
      if h : x = y then isTrue (by rw [h])
      else isFalse (fun hh => h (Except.error.inj hh))

/-- One watcher event together with the ambient world it observes: the
`Date.now()` value and the outcome of the content read. -/
structure Event where
  action : Action
  path : String
  stats : Stats
  now : Nat
  read : Except String String
deriving DecidableEq

/-- Apply one event to the instance state. -/
def step (env : Env) (st : DirState) (e : Event) : DirState :=
  _modify env st e.action e.path e.stats e.now e.read

/-- Apply a sequence of events starting from a given state. -/
def runFrom (env : Env) (st : DirState) (events : List Event) : DirState :=
  events.foldl (step env) st

/-- Apply a sequence of events starting from the freshly constructed
instance (both maps empty). -/
def run (env : Env) (events : List Event) : DirState :=
  runFrom env { files := [], cached := [] } events

/-- `LiveDirectory.info` (the lookup behind the public get surface): normalise
the path and read the `#files` map.  It is a total function: absence is the
`none` result, never an exception. -/
def info (env : Env) (st : DirState) (path : String) : Option FileStats :=
  mapGet st.files (_to_relative_path env.root path)

/-- What `LiveDirectory.content` returns for a present file: the cached
buffer, or a readable stream opened on the stored system path. -/
inductive ContentResult where
  | buffer (content : String)
  | stream (path : String)
deriving DecidableEq

/-- `LiveDirectory.content`: the in-memory buffer when the record is cached,
otherwise `FileSystemSync.createReadStream(file.path)`. -/
def content (env : Env) (st : DirState) (path : String) : Option ContentResult :=
  match mapGet st.files (_to_relative_path env.root path) with
  | none => none
  | some file =>
      if file.cached then file._content.map ContentResult.buffer
      else some (ContentResult.stream file.path)

/-- The ETag of a `_create_stats` outcome, when the reload succeeded. -/
def etagOf (r : Except String FileStats × List (String × Nat)) : Option String :=
  match r.1 with
  | Except.ok fs => some fs.etag
  | Except.error _ => none

/-- A reload attempt that fails: the file passes the caching-eligibility test
in the current state (so `FileSystem.readFile` is actually awaited) and the
read rejects. -/
def reload_fails (env : Env) (st : DirState) (e : Event) : Prop :=
  (e.stats.size ≤ env.opts.max_file_size ∧ st.cached.length < env.opts.max_file_count) ∧
  ∃ err, e.read = Except.error err

/-- Along a trace, every add or update event whose relative path is `p` is a
failing reload in the state where it executes; so no reload of `p` ever
succeeds. -/
def all_reloads_fail (env : Env) (p : String) : DirState → List Event → Prop
  | _, [] => True
  | st, e :: rest =>
      (_to_relative_path env.root e.path = p → e.action ≠ Action.delete →
        reload_fails env st e) ∧
      all_reloads_fail env p (step env st e) rest

/-- The structural filter properties `{names, extensions}`; an absent array is
the empty list. -/
structure FilterProperties where
  names : List String
  extensions : List String
deriving DecidableEq

/-- `LiveDirectory._to_lookup_function`: parse the final path segment and its
extension token and test membership in the configured sets.  The returned
closure takes only the path; the stats argument of the filter call is
ignored. -/
def _to_lookup_function (properties : FilterProperties) (path : String) : Bool :=
  let name := (js_split_string '/' path).getLastD ""
  let extension := (js_split_string '.' name).getLastD ""
  properties.extensions.contains extension || properties.names.contains name

/-- Whether a path "is a directory" for filter purposes in the older
implementation; `isFile` is carried as well because the ignore filter reads
it. -/
structure Stats2 where
  isDirectory : Bool
  isFile : Bool
deriving DecidableEq

/-- The structural keep filter as called through `satisfies_keep(path, stats)`
in `_should_ignore`: the stats argument is dropped on the floor by the
closure `_to_lookup_function` builds. -/
def satisfies_keep_structural (properties : FilterProperties) (path : String)
    (stats : Stats2) : Bool :=
  _to_lookup_function properties path

/-- The compiled instance filter
`(path, stats) => !satisfies_keep(path, stats) || satisfies_ignore(path, stats)`;
`true` means the path is ignored. -/
def v3_filter (satisfies_keep satisfies_ignore : String → Stats2 → Bool)
    (path : String) (stats : Stats2) : Bool :=
  !satisfies_keep path stats || satisfies_ignore path stats

/-- What the constructor does with the `is_accessible_path` verdict. -/
inductive ConstructorResult where
  | initialized (root : String)
  | notAccessibleError (message : String)
deriving DecidableEq

/-- The accessibility gate of the constructor: when `is_accessible_path`
resolves true the instance stores the root and starts `_initialize(path)`
(the recursive scan); otherwise it raises
`LiveDirectory: Provided path (path) is not accessible.` and never scans.
`accessible` is the verdict of `FileSystem.access` per path. -/
def constructor_access_gate (accessible : String → Bool) (path : String) :
    ConstructorResult :=
  if accessible path then ConstructorResult.initialized path
  else
    ConstructorResult.notAccessibleError
      ("LiveDirectory: Provided path " ++ path ++ " is not accessible.")

/-- Concrete fixture: root `/r`, at most 2 cached files of at most 10 bytes,
with the identity function standing in for the hash. -/
def envA : Env :=
  { root := "/r", opts := { max_file_count := 2, max_file_size := 10 }
    md5_hash := fun s => s }

/-- Fixture event: `/r/a` appears with 5 bytes of content `hello`. -/
def e1A : Event :=
  { action := Action.add, path := "/r/a", stats := { size := 5, ctimeMs := 1, mtimeMs := 1 }
    now := 100, read := Except.ok "hello" }

/-- Fixture event: `/r/a` changes to 20 bytes, over the 10-byte cache limit. -/
def e2A : Event :=
  { action := Action.update, path := "/r/a", stats := { size := 20, ctimeMs := 2, mtimeMs := 2 }
    now := 200, read := Except.ok "hello much too big" }

/-- Concrete fixture: a ledger capacity of a single file. -/
def envB : Env :=
  { root := "/r", opts := { max_file_count := 1, max_file_size := 100 }
    md5_hash := fun s => s }

/-- Fixture event: `/r/a` appears with content `hi`. -/
def e1B : Event :=
  { action := Action.add, path := "/r/a", stats := { size := 5, ctimeMs := 1, mtimeMs := 2 }
    now := 10, read := Except.ok "hi" }

/-- Fixture event: `/r/a` is reloaded with identical stats and identical
content; the only difference from `e1B` is that the ledger is now full. -/
def e2B : Event :=
  { action := Action.update, path := "/r/a", stats := { size := 5, ctimeMs := 1, mtimeMs := 2 }
    now := 20, read := Except.ok "hi" }

/-- Concrete fixture: the root path is `/a` and a file lives at `/a/a/b.js`,
so its root-relative path `/a/b.js` itself begins with the root string. -/
def envC : Env :=
  { root := "/a", opts := { max_file_count := 5, max_file_size := 100 }
    md5_hash := fun s => s }

/-- Fixture event: the file `/a/a/b.js` appears. -/
def eC : Event :=
  { action := Action.add, path := "/a/a/b.js", stats := { size := 3, ctimeMs := 1, mtimeMs := 1 }
    now := 1, read := Except.ok "x" }

/-- Fixture event: a reload of `/r/a` whose content read rejects. -/
def eFail : Event :=
  { action := Action.add, path := "/r/a", stats := { size := 5, ctimeMs := 1, mtimeMs := 1 }
    now := 50, read := Except.error "EIO" }

/-- Concrete fixture: a well-behaved root `/w` for the lookup witness. -/
def envW : Env :=
  { root := "/w", opts := { max_file_count := 3, max_file_size := 50 }
    md5_hash := fun s => s }

/-- Fixture event: the file `/w/x.js` appears. -/
def eW : Event :=
  { action := Action.add, path := "/w/x.js", stats := { size := 4, ctimeMs := 1, mtimeMs := 1 }
    now := 5, read := Except.ok "abcd" }

end LiveDir

namespace LiveDirV2

/-!
The older DirectoryTree-based implementation
(`src/components/LiveDirectory.js`): its keep and ignore filters are either
absent or arbitrary predicates over the path and possibly-undefined stats, and
`_ignore_path` composes them, keep first.
-/

/-- The compiled `#filters` pair; `none` models an unconfigured filter. -/
structure Filters where
  keep : Option (String → Option LiveDir.Stats2 → Bool)
  ignore : Option (String → Option LiveDir.Stats2 → Bool)

/-- `LiveDirectory._ignore_path`: the keep (whitelist) gate runs first and a
failing keep verdict ignores the path outright; then the ignore (blacklist)
gate runs; otherwise the path is kept. -/
def _ignore_path (f : Filters) (path : String) (stats : Option LiveDir.Stats2) : Bool :=
  if (match f.keep with
      | some keep => !keep path stats
      | none => false) then true
  else if (match f.ignore with
           | some ignore => ignore path stats
           | none => false) then true
  else false

/-- The structural keep filter that `_parse_keep_filters` compiles from
`{names, extensions}` arrays; an absent or empty array contributes no check
(`verify_names` and `verify_extensions` are the nonemptiness tests of the
source).  Undefined stats or a directory pass unconditionally. -/
def keep_filter_v2 (names extensions : List String) (path : String)
    (stats : Option LiveDir.Stats2) : Bool :=
  match stats with
  | none => true
  | some s =>
      if s.isDirectory then true
      else
        if names ≠ [] && !(names.any (fun current => path.endsWith current)) then false
        else
          if extensions ≠ [] && !(extensions.any (fun current => path.endsWith current))
          then false
          else true

end LiveDirV2

namespace DirTree

/-!
The DirectoryTree component (`src/components/DirectoryTree.js`): a nested
plain-object `#structure` whose leaves are LiveFile instances, and a flat
`#files` dictionary keyed by the full relative path.  A JavaScript value in
the structure is modelled as a property bag with a flag recording whether it
is a LiveFile instance; property lookup behaves identically on both.
-/

/-- A JavaScript object in the tree: a LiveFile (isFile true) or a plain
branch object, with its string-keyed properties. -/
inductive JSVal where
  | obj (isFile : Bool) (props : List (String × JSVal))

/-- Whether the value is a LiveFile instance (`file instanceof LiveFile`). -/
def JSVal.isFileFlag : JSVal → Bool
  | JSVal.obj b _ => b

/-- The property bag of a value. -/
def JSVal.props : JSVal → List (String × JSVal)
  | JSVal.obj _ ps => ps

/-- `path.split("/").filter((c) => c.length > 0)`. -/
def split_chunks (path : String) : List String :=
  (js_split_string '/' path).filter (fun c => c.length > 0)

/-- `DirectoryTree._traverse` specialised to the add callback: walk the
non-final chunks through the property bags, stopping (`break`) at a missing
branch, and at the final chunk set the property to `file`.  Returns the
updated property bag of the root, and whether the callback fired. -/
def traverse_add (file : JSVal) : List String → List (String × JSVal) →
    List (String × JSVal) × Bool
  | [], props => (props, false)
  | [last], props => (mapSet props last file, true)
  | current :: c2 :: rest, props =>
      match mapGet props current with
      | none => (props, false)
      | some next =>
          let r := traverse_add file (c2 :: rest) next.props
          (mapSet props current (JSVal.obj next.isFileFlag r.1), r.2)

/-- Some non-final chunk of the path has no branch in the structure, so the
traversal of `_traverse` breaks before reaching the callback. -/
def branch_missing : List (String × JSVal) → List String → Bool
  | _, [] => false
  | _, [_] => false
  | props, current :: c2 :: rest =>
      match mapGet props current with
      | none => true
      | some next => branch_missing next.props (c2 :: rest)

/-- The DirectoryTree state: `#structure` (here `tree_structure`, since
`structure` is a Lean keyword) and `#files`. -/
structure DirectoryTree where
  tree_structure : List (String × JSVal)
  files : List (String × JSVal)

/-- `DirectoryTree.add`: traverse and set the leaf; register the file in the
`#files` dictionary only when the callback fired and the value is a LiveFile
instance. -/
def DirectoryTree.add (t : DirectoryTree) (path : String) (file : JSVal) :
    DirectoryTree :=
  let chunks := split_chunks path
  let r := traverse_add file chunks t.tree_structure
  { tree_structure := r.1
    files := if r.2 && file.isFileFlag then mapSet t.files path file else t.files }

end DirTree

/-! ## Helper lemmas -/

theorem string_data_append (s t : String) : (s ++ t).data = s.data ++ t.data := by
  cases s; cases t; rfl

theorem string_ext_data {s t : String} (h : s.data = t.data) : s = t := by
  cases s; cases t; exact congrArg String.mk h

theorem quoted_eq_iff (a b : String) :
    ("\"" ++ a ++ "\"" = "\"" ++ b ++ "\"") ↔ a = b := by
  constructor
  · intro h
    apply string_ext_data
    have h2 := congrArg String.data h
    simp only [string_data_append] at h2
    simpa using h2
  · intro h; rw [h]

theorem weak_eq_iff (a b : String) :
    ("W/\"" ++ a ++ "\"" = "W/\"" ++ b ++ "\"") ↔ a = b := by
  constructor
  · intro h
    apply string_ext_data
    have h2 := congrArg String.data h
    simp only [string_data_append] at h2
    simpa using h2
  · intro h; rw [h]

theorem strong_ne_weak (a b : String) :
    ("\"" ++ a ++ "\"" : String) ≠ "W/\"" ++ b ++ "\"" := by
  intro h
  have h2 := congrArg String.data h
  simp only [string_data_append] at h2
  simp at h2

theorem mapGet_mapSet_self {α : Type} (m : List (String × α)) (k : String) (v : α) :
    mapGet (mapSet m k v) k = some v := by
  induction m with
  | nil => simp [mapSet, mapGet]
  | cons hd tl ih =>
      obtain ⟨k2, v2⟩ := hd
      by_cases h : k2 = k
      · simp [mapSet, h, mapGet]
      · simp [mapSet, h, mapGet, ih]

theorem mapGet_mapSet_ne {α : Type} (m : List (String × α)) (k q : String) (v : α)
    (h : k ≠ q) : mapGet (mapSet m k v) q = mapGet m q := by
  induction m with
  | nil => simp [mapSet, mapGet, h]
  | cons hd tl ih =>
      obtain ⟨k2, v2⟩ := hd
      by_cases h2 : k2 = k
      · subst h2; simp [mapSet, mapGet, h]
      · simp [mapSet, h2, mapGet, ih]

theorem mapGet_mapDelete_none {α : Type} (m : List (String × α)) (k q : String)
    (h : mapGet m q = none) : mapGet (mapDelete m k) q = none := by
  induction m with
  | nil => simpa [mapDelete] using h
  | cons hd tl ih =>
      obtain ⟨k2, v2⟩ := hd
      by_cases h2 : k2 = q
      · simp [mapGet, h2] at h
      · simp [mapGet, h2] at h
        by_cases h3 : k2 = k
        · simpa [mapDelete, h3, mapGet, h2] using h
        · simp [mapDelete, h3, mapGet, h2, ih h]

theorem mapSet_length_le {α : Type} (m : List (String × α)) (k : String) (v : α) :
    (mapSet m k v).length ≤ m.length + 1 := by
  induction m with
  | nil => simp [mapSet]
  | cons hd tl ih =>
      obtain ⟨k2, v2⟩ := hd
      by_cases h : k2 = k
      · simp [mapSet, h]
      · simp only [mapSet, if_neg h, List.length_cons]
        omega

theorem mapDelete_length_le {α : Type} (m : List (String × α)) (k : String) :
    (mapDelete m k).length ≤ m.length := by
  induction m with
  | nil => simp [mapDelete]
  | cons hd tl ih =>
      obtain ⟨k2, v2⟩ := hd
      by_cases h : k2 = k
      · simp [mapDelete, h]
      · simp only [mapDelete, if_neg h, List.length_cons]
        omega

namespace LiveDir

/-! ## Claim theorems for the Map-based implementation -/

/-- C1.  For every reload whose content read can complete, `_create_stats`
caches the content exactly when `stats.size <= max_file_size` and the ledger
holds strictly fewer than `max_file_count` paths at decision time; a cached
record stores exactly the bytes read from disk under a strong quoted
content-hash ETag, and an uncached record stores no content and carries the
weak ETag hashing the comma-joined size, ctime and mtime. -/
theorem c1_create_stats_caching (env : Env) (cached : List (String × Nat))
    (now : Nat) (path : String) (stats : Stats) (content : String) :
    ∃ fs : FileStats,
      (_create_stats env cached now (Except.ok content) path stats).1 = Except.ok fs ∧
      (fs.cached = true ↔
        (stats.size ≤ env.opts.max_file_size ∧
          cached.length < env.opts.max_file_count)) ∧
      (fs.cached = true →
        fs._content = some content ∧ fs.etag = "\"" ++ env.md5_hash content ++ "\"") ∧
      (fs.cached = false →
        fs._content = none ∧
          fs.etag = "W/\"" ++ env.md5_hash (weak_fingerprint stats) ++ "\"") := by
  by_cases h : stats.size ≤ env.opts.max_file_size ∧
      cached.length < env.opts.max_file_count
  · simp only [_create_stats, if_pos h]
    exact ⟨_, rfl, by simpa using h, fun _ => ⟨rfl, rfl⟩, fun hf => by simp at hf⟩
  · simp only [_create_stats, if_neg h]
    exact ⟨_, rfl, by simpa using h, fun ht => by simp at ht, fun _ => ⟨rfl, rfl⟩⟩

theorem create_stats_cached_length (env : Env) (c : List (String × Nat)) (now : Nat)
    (read : Except String String) (path : String) (stats : Stats)
    (h : c.length ≤ env.opts.max_file_count) :
    ((_create_stats env c now read path stats).2).length ≤ env.opts.max_file_count := by
  by_cases helig : stats.size ≤ env.opts.max_file_size ∧
      c.length < env.opts.max_file_count
  · have hle := mapSet_length_le c (_to_relative_path env.root path) now
    have h2 := helig.2
    cases read with
    | ok content =>
        simp only [_create_stats, if_pos helig]
        omega
    | error e =>
        simp only [_create_stats, if_pos helig]
        omega
  · simpa only [_create_stats, if_neg helig] using h

theorem step_cached_length (env : Env) (st : DirState) (e : Event)
    (h : st.cached.length ≤ env.opts.max_file_count) :
    (step env st e).cached.length ≤ env.opts.max_file_count := by
  cases ha : e.action with
  | delete =>
      simp only [step, _modify, ha]
      exact le_trans (mapDelete_length_le st.cached _) h
  | add =>
      have hlen := create_stats_cached_length env st.cached e.now e.read e.path e.stats h
      rcases hcs : _create_stats env st.cached e.now e.read e.path e.stats with ⟨res, c2⟩
      rw [hcs] at hlen
      cases res <;> simpa [step, _modify, ha, hcs] using hlen
  | update =>
      have hlen := create_stats_cached_length env st.cached e.now e.read e.path e.stats h
      rcases hcs : _create_stats env st.cached e.now e.read e.path e.stats with ⟨res, c2⟩
      rw [hcs] at hlen
      cases res <;> simpa [step, _modify, ha, hcs] using hlen

/-- C2 (amended).  For any sequence of add, update and delete events from a
fresh instance, the cache ledger holds at most `max_file_count` paths: an
insertion happens only under a strict size check made in the same synchronous
segment.  (The further membership clause of the original claim is false; see
the counterexample.) -/
theorem c2_ledger_bounded (env : Env) (events : List Event) :
    (run env events).cached.length ≤ env.opts.max_file_count := by
  have main : ∀ (evs : List Event) (st : DirState),
      st.cached.length ≤ env.opts.max_file_count →
      (runFrom env st evs).cached.length ≤ env.opts.max_file_count := by
    intro evs
    induction evs with
    | nil => intro st h; simpa [runFrom] using h
    | cons e rest ih =>
        intro st h
        have hstep := step_cached_length env st e h
        simpa [runFrom] using ih (step env st e) hstep
  simpa [run] using main events { files := [], cached := [] } (by simp)

/-- C2 counterexample.  After `/r/a` (5 bytes, cached) is updated to 20 bytes
(over the 10-byte limit), its path is still in the cache ledger while the
indexed entry has `cached = false` and `stats.size = 20 > max_file_size`:
the ledger membership clause of the claim fails. -/
theorem c2_counterexample :
    mapGet (run envA [e1A, e2A]).cached "/a" = some 100 ∧
    (mapGet (run envA [e1A, e2A]).files "/a").map FileStats.cached = some false ∧
    (mapGet (run envA [e1A, e2A]).files "/a").map (fun fs => fs.stats.size) = some 20 ∧
    ¬ (∀ p t, mapGet (run envA [e1A, e2A]).cached p = some t →
        ∃ fs, mapGet (run envA [e1A, e2A]).files p = some fs ∧ fs.cached = true ∧
          fs.stats.size ≤ envA.opts.max_file_size) := by
  refine ⟨by decide, by decide, by decide, ?_⟩
  intro hall
  obtain ⟨fs, hfs, hc, _⟩ := hall "/a" 100 (by decide)
  have h2 : (mapGet (run envA [e1A, e2A]).files "/a").map FileStats.cached =
      some false := by decide
  rw [hfs] at h2
  simp [hc] at h2

/-- C3 (amended).  A reload that fails the caching-eligibility test computes
the weak ETag and replaces the entry with one that holds no content
(`cached = false`, content falls back to a disk stream), but the path is NOT
removed from the cache ledger: the ledger is left exactly unchanged, and
paths leave it only through delete events. -/
theorem c3_uncached_reload (env : Env) (st : DirState) (path : String)
    (stats : Stats) (now : Nat) (read : Except String String)
    (h : ¬ (stats.size ≤ env.opts.max_file_size ∧
            st.cached.length < env.opts.max_file_count)) :
    (_modify env st Action.update path stats now read).cached = st.cached ∧
    mapGet (_modify env st Action.update path stats now read).files
        (_to_relative_path env.root path) =
      some { path := path
             etag := "W/\"" ++ env.md5_hash (weak_fingerprint stats) ++ "\""
             stats := stats, cached := false, _content := none } ∧
    content env (_modify env st Action.update path stats now read) path =
      some (ContentResult.stream path) := by
  have hcs : _create_stats env st.cached now read path stats =
      (Except.ok { path := path
                   etag := "W/\"" ++ env.md5_hash (weak_fingerprint stats) ++ "\""
                   stats := stats, cached := false, _content := none },
       st.cached) := by
    simp [_create_stats, if_neg h]
  refine ⟨?_, ?_, ?_⟩
  · simp [_modify, hcs]
  · simp [_modify, hcs, mapGet_mapSet_self]
  · simp [content, _modify, hcs, mapGet_mapSet_self]

/-- C3 witness: the concrete two-event run of the counterexample, pushed
through the amended theorem. -/
theorem c3_uncached_reload_witness :
    (_modify envA (run envA [e1A]) Action.update "/r/a" e2A.stats 200
        (Except.ok "hello much too big")).cached = (run envA [e1A]).cached ∧
    mapGet (_modify envA (run envA [e1A]) Action.update "/r/a" e2A.stats 200
        (Except.ok "hello much too big")).files
        (_to_relative_path envA.root "/r/a") =
      some { path := "/r/a"
             etag := "W/\"" ++ envA.md5_hash (weak_fingerprint e2A.stats) ++ "\""
             stats := e2A.stats, cached := false, _content := none } ∧
    content envA (_modify envA (run envA [e1A]) Action.update "/r/a" e2A.stats 200
        (Except.ok "hello much too big")) "/r/a" =
      some (ContentResult.stream "/r/a") :=
  c3_uncached_reload envA (run envA [e1A]) "/r/a" e2A.stats 200
    (Except.ok "hello much too big") (by decide)

/-- C3 counterexample.  The path `/a` is in the ledger and cached after the
first event; the second reload is not eligible, the entry's cached flag turns
false, yet the path remains in the ledger with its old timestamp, against the
deregistration clause of the claim. -/
theorem c3_counterexample :
    (mapGet (run envA [e1A]).cached "/a").isSome = true ∧
    (mapGet (run envA [e1A]).files "/a").map FileStats.cached = some true ∧
    (mapGet (run envA [e1A, e2A]).files "/a").map FileStats.cached = some false ∧
    mapGet (run envA [e1A, e2A]).cached "/a" = some 100 := by decide

/-- C4 (amended).  For two reloads of the same path that make the same
caching-eligibility decision, and a collision-free hash, the ETag is
unchanged exactly when the hashed input is unchanged: the content bytes when
both reloads cache, and the comma-joined size, ctime, mtime fingerprint when
neither does.  When the two decisions differ, the ETag always changes (strong
versus weak form), even for a byte-identical, metadata-identical file — the
correction the counterexample forces on the original iff. -/
theorem c4_etag_same_eligibility (env : Env) (path : String)
    (stats1 stats2 : Stats) (cached1 cached2 : List (String × Nat))
    (now1 now2 : Nat) (content1 content2 : String)
    (hinj : Function.Injective env.md5_hash) :
    ((stats1.size ≤ env.opts.max_file_size ∧
        cached1.length < env.opts.max_file_count) →
     (stats2.size ≤ env.opts.max_file_size ∧
        cached2.length < env.opts.max_file_count) →
      (etagOf (_create_stats env cached1 now1 (Except.ok content1) path stats1) =
          etagOf (_create_stats env cached2 now2 (Except.ok content2) path stats2) ↔
        content1 = content2)) ∧
    (¬ (stats1.size ≤ env.opts.max_file_size ∧
        cached1.length < env.opts.max_file_count) →
     ¬ (stats2.size ≤ env.opts.max_file_size ∧
        cached2.length < env.opts.max_file_count) →
      (etagOf (_create_stats env cached1 now1 (Except.ok content1) path stats1) =
          etagOf (_create_stats env cached2 now2 (Except.ok content2) path stats2) ↔
        weak_fingerprint stats1 = weak_fingerprint stats2)) ∧
    ((stats1.size ≤ env.opts.max_file_size ∧
        cached1.length < env.opts.max_file_count) →
     ¬ (stats2.size ≤ env.opts.max_file_size ∧
        cached2.length < env.opts.max_file_count) →
      etagOf (_create_stats env cached1 now1 (Except.ok content1) path stats1) ≠
        etagOf (_create_stats env cached2 now2 (Except.ok content2) path stats2)) := by
  refine ⟨?_, ?_, ?_⟩
  · intro h1 h2
    have e1 : etagOf (_create_stats env cached1 now1 (Except.ok content1) path stats1) =
        some ("\"" ++ env.md5_hash content1 ++ "\"") := by
      simp [_create_stats, if_pos h1, etagOf]
    have e2 : etagOf (_create_stats env cached2 now2 (Except.ok content2) path stats2) =
        some ("\"" ++ env.md5_hash content2 ++ "\"") := by
      simp [_create_stats, if_pos h2, etagOf]
    rw [e1, e2]
    simp only [Option.some.injEq]
    rw [quoted_eq_iff]
    exact ⟨fun h => hinj h, fun h => by rw [h]⟩
  · intro h1 h2
    have e1 : etagOf (_create_stats env cached1 now1 (Except.ok content1) path stats1) =
        some ("W/\"" ++ env.md5_hash (weak_fingerprint stats1) ++ "\"") := by
      simp [_create_stats, if_neg h1, etagOf]
    have e2 : etagOf (_create_stats env cached2 now2 (Except.ok content2) path stats2) =
        some ("W/\"" ++ env.md5_hash (weak_fingerprint stats2) ++ "\"") := by
      simp [_create_stats, if_neg h2, etagOf]
    rw [e1, e2]
    simp only [Option.some.injEq]
    rw [weak_eq_iff]
    exact ⟨fun h => hinj h, fun h => by rw [h]⟩
  · intro h1 h2
    have e1 : etagOf (_create_stats env cached1 now1 (Except.ok content1) path stats1) =
        some ("\"" ++ env.md5_hash content1 ++ "\"") := by
      simp [_create_stats, if_pos h1, etagOf]
    have e2 : etagOf (_create_stats env cached2 now2 (Except.ok content2) path stats2) =
        some ("W/\"" ++ env.md5_hash (weak_fingerprint stats2) ++ "\"") := by
      simp [_create_stats, if_neg h2, etagOf]
    rw [e1, e2]
    intro h
    exact strong_ne_weak _ _ (Option.some.inj h)

/-- C4 witness: the second reload of the unchanged `/r/a` finds the ledger
full, and the theorem yields the changed ETag at these concrete inputs. -/
theorem c4_etag_witness :
    etagOf (_create_stats envB [] 10 (Except.ok "hi") "/r/a" e1B.stats) ≠
      etagOf (_create_stats envB [("/a", 10)] 20 (Except.ok "hi") "/r/a" e1B.stats) :=
  (c4_etag_same_eligibility envB "/r/a" e1B.stats e1B.stats [] [("/a", 10)] 10 20
    "hi" "hi" (fun _ _ hh => hh)).2.2 (by decide) (by decide)

/-- C4 counterexample.  Two consecutive reloads of `/r/a` with identical
stats and identical on-disk content produce different ETags, because the
first reload filled the single-slot ledger and the second is therefore not
cache-eligible: it gets the weak form instead of the strong form. -/
theorem c4_counterexample :
    e2B.stats = e1B.stats ∧ e2B.read = e1B.read ∧
    (mapGet (run envB [e1B]).files "/a").map FileStats.etag = some "\"hi\"" ∧
    (mapGet (run envB [e1B, e2B]).files "/a").map FileStats.etag =
      some "W/\"5,1,2\"" ∧
    ("\"hi\"" : String) ≠ "W/\"5,1,2\"" := by decide

theorem chars_begins_append (a b : List Char) : chars_begins a (a ++ b) = true := by
  induction a with
  | nil => rfl
  | cons c cs ih => simp [chars_begins, ih]

theorem chars_begins_head_ne (c : Char) (cs t : List Char)
    (h : t.head? ≠ some c) : chars_begins (c :: cs) t = false := by
  cases t with
  | nil => rfl
  | cons d ds =>
      have hne : ¬ c = d := fun hh => h (by simp [hh])
      simp [chars_begins, hne]

theorem to_relative_of_root_append (root rel : String) (t : List Char)
    (hrel : rel.data = '/' :: t) :
    _to_relative_path root (root ++ rel) = rel := by
  have h1 : js_starts_with (root ++ rel) root = true := by
    unfold js_starts_with
    rw [string_data_append]
    exact chars_begins_append _ _
  have h2 : js_drop (root ++ rel) root.length = rel := by
    apply string_ext_data
    show (root ++ rel).data.drop root.data.length = rel.data
    rw [string_data_append, List.drop_left]
  have h3 : js_starts_with rel "/" = true := by
    unfold js_starts_with
    rw [hrel]
    simp [chars_begins]
  simp [_to_relative_path, h1, h2, h3]

theorem to_relative_of_relative (root rel : String) (t : List Char)
    (hrel : rel.data = '/' :: t)
    (hnostrip : js_starts_with rel root = false) :
    _to_relative_path root rel = rel := by
  have h3 : js_starts_with rel "/" = true := by
    unfold js_starts_with
    rw [hrel]
    simp [chars_begins]
  simp [_to_relative_path, hnostrip, h3]

theorem to_relative_of_bare (root rel : String) (t : List Char) (r : List Char)
    (hrel : rel.data = '/' :: t) (ht : t.head? ≠ some '/')
    (hroot : root.data = '/' :: r) :
    _to_relative_path root (js_drop rel 1) = rel := by
  have hbare : (js_drop rel 1).data = t := by
    show rel.data.drop 1 = t
    rw [hrel]
    rfl
  have h1 : js_starts_with (js_drop rel 1) root = false := by
    unfold js_starts_with
    rw [hbare, hroot]
    exact chars_begins_head_ne _ _ _ ht
  have h2 : js_starts_with (js_drop rel 1) "/" = false := by
    unfold js_starts_with
    rw [hbare]
    exact chars_begins_head_ne _ _ _ ht
  have h4 : "/" ++ js_drop rel 1 = rel := by
    apply string_ext_data
    rw [string_data_append, hbare]
    rw [hrel]
    rfl
  simp [_to_relative_path, h1, h2, h4]

/-- C5 (amended).  Provided the root-relative form of an indexed path does
not itself begin with the root path string, the absolute form (root prefix
included), the root-relative form with leading separator, and the bare
relative form without it all normalise to the same key and therefore resolve
to the same entry.  (When the relative path does begin with the root string,
the root-relative lookup strips that prefix again and misses; see the
counterexample.) -/
theorem c5_get_three_forms (env : Env) (st : DirState) (rel : String)
    (t r : List Char)
    (hrel : rel.data = '/' :: t) (ht : t.head? ≠ some '/')
    (hroot : env.root.data = '/' :: r)
    (hnostrip : js_starts_with rel env.root = false) :
    info env st (env.root ++ rel) = mapGet st.files rel ∧
    info env st rel = mapGet st.files rel ∧
    info env st (js_drop rel 1) = mapGet st.files rel := by
  refine ⟨?_, ?_, ?_⟩
  · unfold info
    rw [to_relative_of_root_append env.root rel t hrel]
  · unfold info
    rw [to_relative_of_relative env.root rel t hrel hnostrip]
  · unfold info
    rw [to_relative_of_bare env.root rel t r hrel ht hroot]

/-- C5 witness: with root `/w` and the indexed file `/w/x.js`, the three
lookup forms agree at these concrete inputs. -/
theorem c5_get_three_forms_witness :
    info envW (run envW [eW]) (envW.root ++ "/x.js") =
      mapGet (run envW [eW]).files "/x.js" ∧
    info envW (run envW [eW]) "/x.js" = mapGet (run envW [eW]).files "/x.js" ∧
    info envW (run envW [eW]) (js_drop "/x.js" 1) =
      mapGet (run envW [eW]).files "/x.js" :=
  c5_get_three_forms envW (run envW [eW]) "/x.js" "x.js".data "w".data rfl
    (by decide) rfl (by decide)

/-- C5 counterexample.  With root `/a`, the file at absolute path `/a/a/b.js`
is indexed under the relative key `/a/b.js`.  The absolute form and the bare
form resolve to the entry, but the root-relative form `/a/b.js` begins with
the root string, is stripped again to `/b.js`, and misses. -/
theorem c5_counterexample :
    (info envC (run envC [eC]) "/a/a/b.js").isSome = true ∧
    info envC (run envC [eC]) "a/b.js" = info envC (run envC [eC]) "/a/a/b.js" ∧
    info envC (run envC [eC]) "/a/b.js" = none := by decide

/-- C7 counterexample.  With keep `{extensions: ["js"]}`, the structural keep
lookup of the Map-based implementation rejects the directory path `/root/src`
even though the stats mark it a directory (the lookup closure never reads the
stats), and the compiled instance filter therefore ignores the directory:
the keep check does not always pass directories. -/
theorem c7_counterexample :
    satisfies_keep_structural { names := [], extensions := ["js"] } "/root/src"
      { isDirectory := true, isFile := false } = false ∧
    v3_filter (satisfies_keep_structural { names := [], extensions := ["js"] })
      (fun _ _ => false) "/root/src" { isDirectory := true, isFile := false } =
      true := by decide

/-- C8.  First: a reload whose content read rejects leaves the files map
untouched, so a lookup after the failure returns exactly what it returned
before — the entry of the last successful reload, or nothing.  Second: from a
fresh instance, if every add or update event for a relative path is a failing
reload, a get of any path form normalising to it returns not found.  The
lookup is a total function into an option, so the reload error never
surfaces from it. -/
theorem c8_failed_reload_lookup :
    (∀ (env : Env) (st : DirState) (e : Event), e.action ≠ Action.delete →
      (e.stats.size ≤ env.opts.max_file_size ∧
        st.cached.length < env.opts.max_file_count) →
      (∃ err, e.read = Except.error err) →
      (step env st e).files = st.files) ∧
    (∀ (env : Env) (events : List Event) (p : String),
      all_reloads_fail env p { files := [], cached := [] } events →
      ∀ q, _to_relative_path env.root q = p →
        info env (run env events) q = none) := by
  have part1 : ∀ (env : Env) (st : DirState) (e : Event), e.action ≠ Action.delete →
      (e.stats.size ≤ env.opts.max_file_size ∧
        st.cached.length < env.opts.max_file_count) →
      (∃ err, e.read = Except.error err) →
      (step env st e).files = st.files := by
    intro env st e hact helig herrex
    obtain ⟨err, herr⟩ := herrex
    have hcs : _create_stats env st.cached e.now e.read e.path e.stats =
        (Except.error err,
         mapSet st.cached (_to_relative_path env.root e.path) e.now) := by
      simp [_create_stats, if_pos helig, herr]
    cases ha : e.action with
    | delete => exact absurd ha hact
    | add => simp [step, _modify, ha, hcs]
    | update => simp [step, _modify, ha, hcs]
  have main : ∀ (env : Env) (p : String) (events : List Event) (st : DirState),
      mapGet st.files p = none → all_reloads_fail env p st events →
      mapGet (runFrom env st events).files p = none := by
    intro env p events
    induction events with
    | nil => intro st h _; simpa [runFrom] using h
    | cons e rest ih =>
        intro st h hall
        obtain ⟨hhead, htail⟩ := hall
        have hstep : mapGet (step env st e).files p = none := by
          cases ha : e.action with
          | delete =>
              simp only [step, _modify, ha]
              exact mapGet_mapDelete_none _ _ _ h
          | add =>
              by_cases hrel : _to_relative_path env.root e.path = p
              · have hfail := hhead hrel (by simp [ha])
                obtain ⟨helig, err, herr⟩ := hfail
                have hfiles := part1 env st e (by simp [ha]) helig ⟨err, herr⟩
                rw [hfiles]
                exact h
              · rcases hcs : _create_stats env st.cached e.now e.read e.path e.stats
                  with ⟨res, c2⟩
                cases res with
                | ok fs =>
                    simp only [step, _modify, ha, hcs]
                    rw [mapGet_mapSet_ne _ _ _ _ hrel]
                    exact h
                | error msg =>
                    simp only [step, _modify, ha, hcs]
                    exact h
          | update =>
              by_cases hrel : _to_relative_path env.root e.path = p
              · have hfail := hhead hrel (by simp [ha])
                obtain ⟨helig, err, herr⟩ := hfail
                have hfiles := part1 env st e (by simp [ha]) helig ⟨err, herr⟩
                rw [hfiles]
                exact h
              · rcases hcs : _create_stats env st.cached e.now e.read e.path e.stats
                  with ⟨res, c2⟩
                cases res with
                | ok fs =>
                    simp only [step, _modify, ha, hcs]
                    rw [mapGet_mapSet_ne _ _ _ _ hrel]
                    exact h
                | error msg =>
                    simp only [step, _modify, ha, hcs]
                    exact h
        simpa [runFrom] using ih (step env st e) hstep htail
  refine ⟨part1, ?_⟩
  intro env events p hall q hq
  have hmain := main env p events { files := [], cached := [] } (by simp [mapGet]) hall
  unfold info
  rw [hq]
  simpa [run] using hmain

/-- C8 witness: one failing add of `/r/a` from a fresh instance leaves the
files map empty, and the lookup of `/r/a` is not found. -/
theorem c8_failed_reload_witness :
    (step envA { files := [], cached := [] } eFail).files = [] ∧
    info envA (run envA [eFail]) "/r/a" = none := by
  constructor
  · exact c8_failed_reload_lookup.1 envA { files := [], cached := [] } eFail
      (by decide) (by decide) ⟨"EIO", rfl⟩
  · exact c8_failed_reload_lookup.2 envA [eFail] "/a"
      ⟨fun _ _ => ⟨by decide, "EIO", rfl⟩, trivial⟩ "/r/a" (by decide)

/-- C9.  When the `is_accessible_path` verdict for the root path is false,
the constructor raises the configuration error and never reaches
`_initialize`: no scanning begins. -/
theorem c9_inaccessible_path (accessible : String → Bool) (path : String)
    (h : accessible path = false) :
    constructor_access_gate accessible path =
      ConstructorResult.notAccessibleError
        ("LiveDirectory: Provided path " ++ path ++ " is not accessible.") ∧
    ∀ root, constructor_access_gate accessible path ≠
      ConstructorResult.initialized root := by
  constructor
  · simp [constructor_access_gate, h]
  · intro root hcontra
    simp [constructor_access_gate, h] at hcontra

/-- C9 witness: a filesystem on which no path is accessible. -/
theorem c9_inaccessible_path_witness :
    constructor_access_gate (fun _ => false) "/missing" =
      ConstructorResult.notAccessibleError
        ("LiveDirectory: Provided path " ++ "/missing" ++ " is not accessible.") ∧
    ∀ root, constructor_access_gate (fun _ => false) "/missing" ≠
      ConstructorResult.initialized root :=
  c9_inaccessible_path (fun _ => false) "/missing" rfl

end LiveDir

namespace LiveDirV2

/-- C6.  A path is kept exactly when the keep filter is absent or accepts it,
and it is not the case that the ignore filter is present and matches it; and
a present keep filter that rejects the path ignores it regardless of any
ignore filter: the whitelist gate runs before the blacklist gate. -/
theorem c6_filter_composition (f : Filters) (path : String)
    (stats : Option LiveDir.Stats2) :
    ((_ignore_path f path stats = false) ↔
      ((f.keep = none ∨ ∃ k, f.keep = some k ∧ k path stats = true) ∧
       ¬ (∃ i, f.ignore = some i ∧ i path stats = true))) ∧
    (∀ k, f.keep = some k → k path stats = false →
      _ignore_path f path stats = true) := by
  obtain ⟨keep, ignore⟩ := f
  cases keep with
  | none =>
      cases ignore with
      | none => simp [_ignore_path]
      | some i => cases hi : i path stats <;> simp [_ignore_path, hi]
  | some k =>
      cases hk : k path stats with
      | false =>
          cases ignore with
          | none => simp [_ignore_path, hk]
          | some i => simp [_ignore_path, hk]
      | true =>
          cases ignore with
          | none => simp [_ignore_path, hk]
          | some i => cases hi : i path stats <;> simp [_ignore_path, hi, hk]

/-- C7 (amended).  In the DirectoryTree-based implementation, the structural
keep filter compiled by `_parse_keep_filters` always passes a path whose
stats are undefined or mark a directory, regardless of the configured name
and extension arrays.  (In the Map-based implementation the keep lookup
ignores stats entirely, so a directory passes its keep check only when its
final segment or extension token matches the sets; see the
counterexample.) -/
theorem c7_keep_directories (names extensions : List String) (path : String)
    (stats : Option LiveDir.Stats2)
    (h : stats = none ∨ ∃ s, stats = some s ∧ s.isDirectory = true) :
    keep_filter_v2 names extensions path stats = true := by
  rcases h with h | ⟨s, hs, hd⟩
  · subst h; rfl
  · subst hs; simp [keep_filter_v2, hd]

/-- C7 witness: a directory passes the keep filter even under narrow name
and extension whitelists. -/
theorem c7_keep_directories_witness :
    keep_filter_v2 ["index.html"] ["js"] "/root/src"
      (some { isDirectory := true, isFile := false }) = true :=
  c7_keep_directories ["index.html"] ["js"] "/root/src"
    (some { isDirectory := true, isFile := false }) (Or.inr ⟨_, rfl, rfl⟩)

end LiveDirV2

namespace DirTree

theorem mapSet_of_mapGet {α : Type} (m : List (String × α)) (k : String) (v : α)
    (h : mapGet m k = some v) : mapSet m k v = m := by
  induction m with
  | nil => simp [mapGet] at h
  | cons hd tl ih =>
      obtain ⟨k2, v2⟩ := hd
      by_cases h2 : k2 = k
      · subst h2
        simp [mapGet] at h
        simp [mapSet, h]
      · simp [mapGet, h2] at h
        simp [mapSet, h2, ih h]

theorem traverse_add_missing (file : JSVal) :
    ∀ (chunks : List String) (props : List (String × JSVal)),
      branch_missing props chunks = true →
      traverse_add file chunks props = (props, false) := by
  intro chunks
  induction chunks with
  | nil => intro props h; simp [branch_missing] at h
  | cons c rest ih =>
      intro props h
      cases rest with
      | nil => simp [branch_missing] at h
      | cons c2 rest2 =>
          cases hg : mapGet props c with
          | none => simp [traverse_add, hg]
          | some next =>
              have h2 : branch_missing next.props (c2 :: rest2) = true := by
                simpa [branch_missing, hg] using h
              have heta : JSVal.obj next.isFileFlag next.props = next := by
                cases next; rfl
              have hset : mapSet props c (JSVal.obj next.isFileFlag next.props) =
                  props := by
                rw [heta]; exact mapSet_of_mapGet props c next hg
              simp [traverse_add, hg, ih next.props h2, hset]

/-- C10.  When a path splits into more than one chunk and some non-final
chunk has no branch in the tree structure, `DirectoryTree.add` silently
changes nothing: the structure and the files dictionary are returned as they
were, so a lookup of the path still returns undefined after the add. -/
theorem c10_add_missing_branch_noop (t : DirectoryTree) (path : String)
    (file : JSVal)
    (hdepth : 1 < (split_chunks path).length)
    (hmissing : branch_missing t.tree_structure (split_chunks path) = true) :
    t.add path file = t ∧
    (mapGet t.files path = none → mapGet (t.add path file).files path = none) := by
  have htrav := traverse_add_missing file (split_chunks path) t.tree_structure hmissing
  have hadd : t.add path file = t := by
    simp [DirectoryTree.add, htrav]
  exact ⟨hadd, fun habs => by rw [hadd]; exact habs⟩

/-- C10 witness: adding `/a/b` to an empty tree, whose branch `a` does not
exist, changes nothing and the added path still resolves to nothing. -/
theorem c10_add_witness :
    DirectoryTree.add { tree_structure := [], files := [] } "/a/b"
        (JSVal.obj true []) =
      ({ tree_structure := [], files := [] } : DirectoryTree) ∧
    (mapGet ({ tree_structure := [], files := [] } : DirectoryTree).files "/a/b" =
        none →
      mapGet (DirectoryTree.add { tree_structure := [], files := [] } "/a/b"
        (JSVal.obj true [])).files "/a/b" = none) :=
  c10_add_missing_branch_noop { tree_structure := [], files := [] } "/a/b"
    (JSVal.obj true []) (by decide) (by decide)

end DirTree
